import Mathlib

/-!
Verification of the outgoing-batch subsystem of the gravity-bridge module
(`module/x/gravity/keeper/batch.go`), shallowly embedded in Lean.

Machine integers: Go `uint64` values are modelled as `Nat` together with an
explicit modulus `W = 2 ^ 64` at every operation that can wrap (the nonce
counter increment and the timeout-projection arithmetic).  `sdk.Int` is an
arbitrary-precision integer and is modelled as `Int`.  Ethereum addresses
(`common.Address`) are modelled as an abstract key type `Addr`; the source
round-trips addresses through their hex string (`Hex` / `HexToAddress`),
which is the identity on the address itself, so the model keeps the address
directly.

Store model: the keeper's ordered key-value store is an external collaborator
of this subsystem (spec section 1).  Outgoing batches live under keys derived
from the record itself (token contract ++ big-endian nonce), so the batch
store is modelled as a list of `BatchTx` records with lookup / overwrite /
erase by the (tokenContract, nonce) key.  The unbatched send-to-ethereum pool
is keyed by (fee contract, fee amount, id); it is modelled as a list of
records, with the per-contract iteration visiting entries in the spec's
fee-descending priority order (id as tiebreaker).  Fatal conditions (Go nil
pointer dereference after a failed store lookup, which aborts the enclosing
transition) are modelled by `Option`: `none` is an aborted transition.

Go panics inside event emission, logging, and the event manager are ignored:
no claim mentions events, and they do not touch the modelled state.
-/

namespace Gravity

/-- Modulus of a 64-bit unsigned machine integer (Go `uint64`). -/
def W : Nat := 2 ^ 64

/-- Token / bridge contract address (`common.Address`). -/
abbrev Addr := Nat

/-- An ERC20 amount: token contract plus arbitrary-precision amount (`types.ERC20Token`). -/
structure ERC20Token where
  contract : Addr
  amount : Int
deriving DecidableEq, Repr

/-- A pending cross-chain transfer request (`types.SendToEthereum`). -/
structure SendToEthereum where
  id : Nat
  sender : String
  ethereumRecipient : Addr
  erc20Token : ERC20Token
  erc20Fee : ERC20Token
deriving DecidableEq, Repr

/-- An outgoing batch (`types.BatchTx`). -/
structure BatchTx where
  nonce : Nat
  timeout : Nat
  transactions : List SendToEthereum
  tokenContract : Addr
  height : Nat
deriving DecidableEq, Repr

/-- Module parameters consumed by the batch subsystem (`types.Params`), in milliseconds. -/
structure Params where
  averageBlockTime : Nat
  averageEthereumBlockTime : Nat
  targetBatchTimeout : Nat
deriving DecidableEq, Repr

/-- Last jointly observed (Cosmos height, Ethereum height) pair, written by the oracle. -/
structure LastObservedHeights where
  cosmosHeight : Nat
  ethereumHeight : Nat
deriving DecidableEq, Repr

/-- The keeper state visible to `batch.go`: the unbatched pool, the outgoing batch
store, the last-outgoing-batch-nonce counter cell (`none` when the key is absent),
the module params, the oracle's observed heights, and the current block height. -/
structure State where
  pool : List SendToEthereum
  batches : List BatchTx
  lastBatchNonce : Option Nat
  params : Params
  observed : LastObservedHeights
  blockHeight : Nat
deriving DecidableEq, Repr

/-- Modelled from the spec: store lookup `GetOutgoingTx` at key
`MakeBatchTxKey(tokenContract, nonce)` (spec section 6 key layout: batch records are
keyed by token contract and nonce). -/
def lookupBatch : List BatchTx → Addr → Nat → Option BatchTx
  | [], _, _ => none
  | b :: rest, c, n =>
    if b.tokenContract = c ∧ b.nonce = n then some b else lookupBatch rest c n

/-- Modelled from the spec: removal of the record keyed (tokenContract, nonce)
from the batch store. -/
def eraseBatch : List BatchTx → Addr → Nat → List BatchTx
  | [], _, _ => []
  | b :: rest, c, n =>
    if b.tokenContract = c ∧ b.nonce = n then eraseBatch rest c n
    else b :: eraseBatch rest c n

/-- Store lookup of a batch record (`k.GetOutgoingTx` + `*types.BatchTx` assertion). -/
def GetOutgoingTxBatch (st : State) (c : Addr) (n : Nat) : Option BatchTx :=
  lookupBatch st.batches c n

/-- Modelled from the spec: `k.SetOutgoingTx` persists the batch under its own
(tokenContract, nonce) key, overwriting any record at that key. -/
def SetOutgoingTx (st : State) (b : BatchTx) : State :=
  { st with batches := eraseBatch st.batches b.tokenContract b.nonce ++ [b] }

/-- Modelled from the spec: `k.DeleteOutgoingTx` removes the record at the given key. -/
def DeleteOutgoingTx (st : State) (c : Addr) (n : Nat) : State :=
  { st with batches := eraseBatch st.batches c n }

/-- Sum of the `Erc20Fee` amounts of a list of transfers. -/
def steFeeSum : List SendToEthereum → Int
  | [] => 0
  | s :: rest => s.erc20Fee.amount + steFeeSum rest

/-- Modelled from the spec: `types.BatchTx.GetFees` (types package, not under src/):
the batch's total fee, the sum of the fee amounts of its member transfers. -/
def BatchTx.getFees (b : BatchTx) : Int := steFeeSum b.transactions

/-- Entries of the unbatched pool whose fee is denominated in the given token contract
(the pool is keyed per fee token contract, spec section 6). -/
def poolFilter : List SendToEthereum → Addr → List SendToEthereum
  | [], _ => []
  | s :: rest, c =>
    if s.erc20Fee.contract = c then s :: poolFilter rest c else poolFilter rest c

/-- Insertion step of the fee-descending ordering of the unbatched pool index. -/
def insertSte (s : SendToEthereum) : List SendToEthereum → List SendToEthereum
  | [] => [s]
  | t :: ts =>
    if t.erc20Fee.amount < s.erc20Fee.amount ∨
        (s.erc20Fee.amount = t.erc20Fee.amount ∧ s.id ≤ t.id) then
      s :: t :: ts
    else t :: insertSte s ts

/-- Sorting a pool fragment into the index order: fee descending, id ascending. -/
def sortStes : List SendToEthereum → List SendToEthereum
  | [] => []
  | s :: ss => insertSte s (sortStes ss)

/-- Modelled from the spec: the visit order of
`k.IterateUnbatchedSendToEthereumsByContract` (spec section 6 pool iteration
contract): the pool entries of the given token contract in fee-descending
priority order. -/
def unbatchedByContract (st : State) (c : Addr) : List SendToEthereum :=
  sortStes (poolFilter st.pool c)

/-- Modelled from the spec: `k.DeleteUnbatchedSendToEthereum(id, fee)` removes the
pool entry keyed by the fee token contract, fee amount and id. -/
def poolDelete : List SendToEthereum → Nat → ERC20Token → List SendToEthereum
  | [], _, _ => []
  | s :: rest, i, f =>
    if s.id = i ∧ s.erc20Fee = f then poolDelete rest i f
    else s :: poolDelete rest i f

/-- Deletion of a single transfer from the unbatched pool by its id and fee. -/
def DeleteUnbatchedSendToEthereum (st : State) (i : Nat) (f : ERC20Token) : State :=
  { st with pool := poolDelete st.pool i f }

/-- Modelled from the spec: `k.SetUnbatchedSendToEthereum` re-inserts a transfer
into the unbatched pool, re-indexed by its fee (spec section 4.5); the iteration
order is recovered by `unbatchedByContract`, so insertion position is immaterial. -/
def SetUnbatchedSendToEthereum (st : State) (s : SendToEthereum) : State :=
  { st with pool := st.pool ++ [s] }

/-- Keeper method `IncrementLastOutgoingBatchNonce` (batch.go lines 182-193): read the
counter cell (0 when absent), add one (uint64 wrap), persist, return the new value. -/
def IncrementLastOutgoingBatchNonce (st : State) : Nat × State :=
  let id := st.lastBatchNonce.getD 0
  let newId := (id + 1) % W
  (newId, { st with lastBatchNonce := some newId })

/-- Keeper method `getBatchTimeoutHeight` (batch.go lines 61-78).  All arithmetic is Go
`uint64` arithmetic, hence taken modulo `W`; in particular the subtraction
`uint64(currentCosmosHeight) - heights.CosmosHeight` wraps around when the observed
Cosmos height exceeds the current one. -/
def getBatchTimeoutHeight (st : State) : Nat :=
  let params := st.params
  let currentCosmosHeight := st.blockHeight
  let heights := st.observed
  if heights.cosmosHeight = 0 ∨ heights.ethereumHeight = 0 then 0
  else
    let projectedMillis :=
      (currentCosmosHeight + W - heights.cosmosHeight) % W * params.averageBlockTime % W
    let projectedCurrentEthereumHeight :=
      (projectedMillis / params.averageEthereumBlockTime + heights.ethereumHeight) % W
    let blocksToAdd := params.targetBatchTimeout / params.averageEthereumBlockTime
    (projectedCurrentEthereumHeight + blocksToAdd) % W

/-- Selection loop of `BuildBatchTx` (batch.go lines 32-37): append each visited pool
entry to the selection and stop as soon as the selection length equals `maxElements`
(checked only after an entry has been taken). -/
def selectStesGo : List SendToEthereum → Nat → List SendToEthereum → List SendToEthereum
  | [], _, sel => sel
  | s :: rest, m, sel =>
    let sel2 := sel ++ [s]
    if sel2.length = m then sel2 else selectStesGo rest m sel2

/-- Accumulation loop of `GetBatchFeesByTokenType` (batch.go lines 100-110): add each
visited entry's fee amount, stopping once the running count equals `maxElements`. -/
def feesGo : List SendToEthereum → Nat → Int → Nat → Int
  | [], _, acc, _ => acc
  | s :: rest, m, acc, i =>
    let acc2 := acc + s.erc20Fee.amount
    let i2 := i + 1
    if i2 = m then acc2 else feesGo rest m acc2 i2

/-- Keeper method `GetBatchFeesByTokenType`: the fee total the next batch of this
token would have. -/
def GetBatchFeesByTokenType (st : State) (c : Addr) (maxElements : Nat) : Int :=
  feesGo (unbatchedByContract st c) maxElements 0 0

/-- Scan loop of `GetLastOutgoingBatchByTokenType` (batch.go lines 138-150): keep the
visited batch whenever its token matches and its nonce strictly exceeds the running
`lastNonce`, which starts at 0. -/
def lastBatchGo (token : Addr) :
    List BatchTx → Option BatchTx → Nat → Option BatchTx
  | [], lastBatch, _ => lastBatch
  | b :: rest, lastBatch, lastNonce =>
    if b.tokenContract = token ∧ lastNonce < b.nonce then lastBatchGo token rest (some b) b.nonce
    else lastBatchGo token rest lastBatch lastNonce

/-- Keeper method `GetLastOutgoingBatchByTokenType`: the latest outgoing batch of the
given token type (the spec's `GetCurrentBatch`). -/
def GetLastOutgoingBatchByTokenType (st : State) (token : Addr) : Option BatchTx :=
  lastBatchGo token st.batches none 0

/-- Removal of every selected entry from the pool, as performed one entry at a time
inside the selection loop of `BuildBatchTx` (batch.go line 35). -/
def deleteSelected : State → List SendToEthereum → State
  | st, [] => st
  | st, s :: rest => deleteSelected (DeleteUnbatchedSendToEthereum st s.id s.erc20Fee) rest

/-- Body of `BuildBatchTx` past the profitability guard (batch.go lines 32-57): select
and drain pool entries, allocate a nonce, stamp timeout and height, persist. -/
def buildBatchCore (st : State) (contractAddress : Addr) (maxElements : Nat) :
    Option BatchTx × State :=
  let selectedStes := selectStesGo (unbatchedByContract st contractAddress) maxElements []
  let st1 := deleteSelected st selectedStes
  let incr := IncrementLastOutgoingBatchNonce st1
  let batch : BatchTx :=
    { nonce := incr.1
      timeout := getBatchTimeoutHeight st1
      transactions := selectedStes
      tokenContract := contractAddress
      height := st1.blockHeight }
  (some batch, SetOutgoingTx incr.2 batch)

/-- Keeper method `BuildBatchTx` (batch.go lines 24-58): profitability guard, then
selection, assembly and persistence.  Returns the built batch (or `none` when the
guard aborts) together with the post state. -/
def BuildBatchTx (st : State) (contractAddress : Addr) (maxElements : Nat) :
    Option BatchTx × State :=
  match GetLastOutgoingBatchByTokenType st contractAddress with
  | some lastBatch =>
    if GetBatchFeesByTokenType st contractAddress maxElements ≤ lastBatch.getFees then
      (none, st)
    else buildBatchCore st contractAddress maxElements
  | none => buildBatchCore st contractAddress maxElements

/-- Re-insertion of a batch's member transfers into the unbatched pool, in order
(`CancelBatchTx` loop, batch.go lines 118-120). -/
def requeue : State → List SendToEthereum → State
  | st, [] => st
  | st, tx :: rest => requeue (SetUnbatchedSendToEthereum st tx) rest

/-- Keeper method `CancelBatchTx` (batch.go lines 113-135): release every member
transfer back into the pool and delete the batch record.  A missing record makes the
Go code dereference a nil `*types.BatchTx`, a panic that aborts the enclosing
transition; this is `none`. -/
def CancelBatchTx (st : State) (tokenContract : Addr) (nonce : Nat) : Option State :=
  match GetOutgoingTxBatch st tokenContract nonce with
  | none => none
  | some batch =>
    let st1 := requeue st batch.transactions
    some (DeleteOutgoingTx st1 batch.tokenContract batch.nonce)

/-- Cascade loop of `BatchTxExecuted` (batch.go lines 85-92) over a snapshot of the
batch store: for each iterated batch with a strictly smaller nonce (the further
conjunct compares the executed batch's token contract with the argument used to fetch
it, which is always true), cancel the batch at key (tokenContract, iterated nonce). -/
def execLoop (tokenContract : Addr) (batchTx : BatchTx) :
    List BatchTx → State → Option State
  | [], st => some st
  | btx :: rest, st =>
    if btx.nonce < batchTx.nonce ∧ batchTx.tokenContract = tokenContract then
      match CancelBatchTx st tokenContract btx.nonce with
      | none => none
      | some st2 => execLoop tokenContract batchTx rest st2
    else execLoop tokenContract batchTx rest st

/-- Keeper method `BatchTxExecuted` (batch.go lines 82-94): fetch the executed batch
(a missing record leaves a nil `*types.BatchTx` whose later dereference panics,
aborting the transition), run the cascade loop, then delete the executed batch. -/
def BatchTxExecuted (st : State) (tokenContract : Addr) (nonce : Nat) : Option State :=
  match GetOutgoingTxBatch st tokenContract nonce with
  | none => none
  | some batchTx =>
    match execLoop tokenContract batchTx st.batches st with
    | none => none
    | some st2 => some (DeleteOutgoingTx st2 batchTx.tokenContract batchTx.nonce)

/-- State after `n` consecutive `IncrementLastOutgoingBatchNonce` calls. -/
def iterAlloc (st : State) : Nat → State
  | 0 => st
  | n + 1 => (IncrementLastOutgoingBatchNonce (iterAlloc st n)).2

/-- Value returned by the `n`-th `IncrementLastOutgoingBatchNonce` call (1-indexed). -/
def allocVal (st : State) (n : Nat) : Nat :=
  (IncrementLastOutgoingBatchNonce (iterAlloc st (n - 1))).1

/-- Formula asserted by claim C3 for the timeout projection, over mathematical
integers with floor division. -/
def specProjectTimeout (st : State) : Int :=
  (st.observed.ethereumHeight : Int) +
    Int.fdiv (((st.blockHeight : Int) - (st.observed.cosmosHeight : Int)) *
        (st.params.averageBlockTime : Int))
      (st.params.averageEthereumBlockTime : Int) +
    Int.fdiv (st.params.targetBatchTimeout : Int) (st.params.averageEthereumBlockTime : Int)

/-! Helper lemmas about the store and loop primitives. -/

theorem steFeeSum_append (l1 l2 : List SendToEthereum) :
    steFeeSum (l1 ++ l2) = steFeeSum l1 + steFeeSum l2 := by
  induction l1 with
  | nil => simp [steFeeSum]
  | cons s rest ih => simp [steFeeSum, ih, add_assoc]

theorem selectStesGo_feeSum (m : Nat) :
    ∀ (l sel : List SendToEthereum),
      steFeeSum (selectStesGo l m sel) = feesGo l m (steFeeSum sel) sel.length := by
  intro l
  induction l with
  | nil => intro sel; rfl
  | cons s rest ih =>
    intro sel
    simp only [selectStesGo, feesGo, List.length_append, List.length_cons,
      List.length_nil, Nat.zero_add]
    by_cases h : sel.length + 1 = m
    · rw [if_pos h, if_pos h, steFeeSum_append]
      simp [steFeeSum]
    · rw [if_neg h, if_neg h, ih]
      rw [steFeeSum_append]
      simp [steFeeSum]

theorem selectStesGo_zero :
    ∀ (l sel : List SendToEthereum), selectStesGo l 0 sel = sel ++ l := by
  intro l
  induction l with
  | nil => intro sel; simp [selectStesGo]
  | cons s rest ih =>
    intro sel
    simp only [selectStesGo]
    rw [if_neg (by simp)]
    rw [ih]
    simp

theorem feesGo_zero :
    ∀ (l : List SendToEthereum) (acc : Int) (i : Nat),
      feesGo l 0 acc i = acc + steFeeSum l := by
  intro l
  induction l with
  | nil => intro acc i; simp [feesGo, steFeeSum]
  | cons s rest ih =>
    intro acc i
    simp only [feesGo]
    rw [if_neg (by omega)]
    rw [ih]
    simp [steFeeSum, add_assoc]

theorem lookupBatch_eq_some {l : List BatchTx} {c : Addr} {n : Nat} {b : BatchTx}
    (h : lookupBatch l c n = some b) :
    b.tokenContract = c ∧ b.nonce = n ∧ b ∈ l := by
  induction l with
  | nil => simp [lookupBatch] at h
  | cons x rest ih =>
    simp only [lookupBatch] at h
    by_cases hx : x.tokenContract = c ∧ x.nonce = n
    · rw [if_pos hx] at h
      injection h with h
      subst h
      exact ⟨hx.1, hx.2, List.mem_cons_self x rest⟩
    · rw [if_neg hx] at h
      obtain ⟨h1, h2, h3⟩ := ih h
      exact ⟨h1, h2, List.mem_cons_of_mem x h3⟩

theorem lookupBatch_isSome_of_mem {l : List BatchTx} {b : BatchTx}
    (hmem : b ∈ l) (hc : b.tokenContract = c) (hn : b.nonce = n) :
    (lookupBatch l c n).isSome := by
  induction l with
  | nil => simp at hmem
  | cons x rest ih =>
    simp only [lookupBatch]
    by_cases hx : x.tokenContract = c ∧ x.nonce = n
    · rw [if_pos hx]; rfl
    · rw [if_neg hx]
      rcases List.mem_cons.mp hmem with h | h
      · exact absurd ⟨h ▸ hc, h ▸ hn⟩ hx
      · exact ih h

theorem mem_eraseBatch {l : List BatchTx} {c : Addr} {n : Nat} {x : BatchTx} :
    x ∈ eraseBatch l c n ↔ x ∈ l ∧ ¬(x.tokenContract = c ∧ x.nonce = n) := by
  induction l with
  | nil => simp [eraseBatch]
  | cons y rest ih =>
    simp only [eraseBatch]
    by_cases hy : y.tokenContract = c ∧ y.nonce = n
    · rw [if_pos hy, ih]
      constructor
      · rintro ⟨h1, h2⟩
        exact ⟨List.mem_cons_of_mem y h1, h2⟩
      · rintro ⟨h1, h2⟩
        rcases List.mem_cons.mp h1 with h | h
        · exact absurd (h ▸ hy) h2
        · exact ⟨h, h2⟩
    · rw [if_neg hy]
      simp only [List.mem_cons, ih]
      constructor
      · rintro (h | ⟨h1, h2⟩)
        · exact ⟨Or.inl h, h ▸ hy⟩
        · exact ⟨Or.inr h1, h2⟩
      · rintro ⟨h1 | h1, h2⟩
        · exact Or.inl h1
        · exact Or.inr ⟨h1, h2⟩

theorem lookupBatch_eraseBatch_self (l : List BatchTx) (c : Addr) (n : Nat) :
    lookupBatch (eraseBatch l c n) c n = none := by
  induction l with
  | nil => rfl
  | cons x rest ih =>
    simp only [eraseBatch]
    by_cases hx : x.tokenContract = c ∧ x.nonce = n
    · rw [if_pos hx]; exact ih
    · rw [if_neg hx]
      simp only [lookupBatch, if_neg hx]
      exact ih

theorem lookupBatch_eraseBatch_append {l : List BatchTx} {b : BatchTx} {c : Addr} {n : Nat}
    (hc : b.tokenContract = c) (hn : b.nonce = n) :
    lookupBatch (eraseBatch l c n ++ [b]) c n = some b := by
  induction l with
  | nil => simp [eraseBatch, lookupBatch, hc, hn]
  | cons x rest ih =>
    simp only [eraseBatch]
    by_cases hx : x.tokenContract = c ∧ x.nonce = n
    · rw [if_pos hx]; exact ih
    · rw [if_neg hx]
      simp only [List.cons_append, lookupBatch, if_neg hx]
      exact ih

theorem requeue_eq : ∀ (l : List SendToEthereum) (st : State),
    requeue st l = { st with pool := st.pool ++ l } := by
  intro l
  induction l with
  | nil => intro st; simp [requeue]
  | cons x rest ih =>
    intro st
    simp only [requeue, SetUnbatchedSendToEthereum]
    rw [ih]
    simp

theorem deleteSelected_fields : ∀ (l : List SendToEthereum) (st : State),
    (deleteSelected st l).batches = st.batches ∧
    (deleteSelected st l).lastBatchNonce = st.lastBatchNonce ∧
    (deleteSelected st l).params = st.params ∧
    (deleteSelected st l).observed = st.observed ∧
    (deleteSelected st l).blockHeight = st.blockHeight := by
  intro l
  induction l with
  | nil => intro st; exact ⟨rfl, rfl, rfl, rfl, rfl⟩
  | cons x rest ih =>
    intro st
    simp only [deleteSelected]
    exact ih (DeleteUnbatchedSendToEthereum st x.id x.erc20Fee)

theorem getBatchTimeoutHeight_congr {st1 st2 : State}
    (hp : st1.params = st2.params) (ho : st1.observed = st2.observed)
    (hb : st1.blockHeight = st2.blockHeight) :
    getBatchTimeoutHeight st1 = getBatchTimeoutHeight st2 := by
  simp only [getBatchTimeoutHeight, hp, ho, hb]

theorem cancelBatchTx_spec {st : State} {c : Addr} {n : Nat} {b : BatchTx}
    (hb : GetOutgoingTxBatch st c n = some b) :
    CancelBatchTx st c n =
      some { st with pool := st.pool ++ b.transactions,
                     batches := eraseBatch st.batches c n } := by
  obtain ⟨hc, hn, _⟩ := lookupBatch_eq_some hb
  simp only [CancelBatchTx, hb, requeue_eq, DeleteOutgoingTx, hc, hn]

/-! Claim C6. -/

/-- C6: for every state, `getBatchTimeoutHeight` returns 0 whenever either component
of the last observed (Cosmos height, Ethereum height) pair is 0 — in particular for
the never-observed sentinel pair (0, 0) — regardless of the current block height.
The function is a pure read (`State → Nat` in this model), so no state is modified. -/
theorem getBatchTimeoutHeight_zero_sentinel (st : State)
    (h : st.observed.cosmosHeight = 0 ∨ st.observed.ethereumHeight = 0) :
    getBatchTimeoutHeight st = 0 := by
  simp only [getBatchTimeoutHeight, if_pos h]

/-- State with the never-observed sentinel pair and a nonzero current height. -/
def w6St : State :=
  { pool := [], batches := [], lastBatchNonce := none,
    params := { averageBlockTime := 5000, averageEthereumBlockTime := 15000,
                targetBatchTimeout := 43200000 },
    observed := { cosmosHeight := 0, ethereumHeight := 0 }, blockHeight := 999 }

/-- Witness for C6 at the sentinel pair (0, 0) and current height 999. -/
theorem getBatchTimeoutHeight_zero_sentinel_witness :
    w6St.observed.cosmosHeight = 0 ∧ getBatchTimeoutHeight w6St = 0 :=
  ⟨by decide, getBatchTimeoutHeight_zero_sentinel w6St (by decide)⟩

/-! Claim C10. -/

/-- C10: with limit 0, the selection step of `BuildBatchTx` selects the whole
unbatched pool of the token and `GetBatchFeesByTokenType` sums the whole pool:
the stop check compares the running count with the limit only after an entry has
been taken, so a count that starts above 0 never equals 0 and a zero limit behaves
as unlimited, not as empty. -/
theorem zeroLimit_processes_whole_pool (st : State) (T : Addr) :
    selectStesGo (unbatchedByContract st T) 0 [] = unbatchedByContract st T ∧
    GetBatchFeesByTokenType st T 0 = steFeeSum (unbatchedByContract st T) := by
  constructor
  · rw [selectStesGo_zero]
    simp
  · unfold GetBatchFeesByTokenType
    rw [feesGo_zero]
    simp

/-! Claim C5. -/

/-- C5: for every stored batch `b` at key (T, k), `CancelBatchTx T k` re-inserts
every member transfer of `b` into the unbatched pool (the very same records, so fee,
amount and destination are unchanged; they are re-indexed by fee through the pool
iteration order), deletes the batch record at (T, k), and leaves every other batch
and every other pool entry — and all remaining state — unchanged. -/
theorem cancelBatchTx_restores_pool (st : State) (T : Addr) (k : Nat) (b : BatchTx)
    (hb : GetOutgoingTxBatch st T k = some b) :
    ∃ st2, CancelBatchTx st T k = some st2 ∧
      st2.pool = st.pool ++ b.transactions ∧
      st2.batches = eraseBatch st.batches T k ∧
      GetOutgoingTxBatch st2 T k = none ∧
      (∀ x ∈ st.batches, ¬(x.tokenContract = T ∧ x.nonce = k) → x ∈ st2.batches) ∧
      st2.lastBatchNonce = st.lastBatchNonce ∧ st2.params = st.params ∧
      st2.observed = st.observed ∧ st2.blockHeight = st.blockHeight := by
  refine ⟨_, cancelBatchTx_spec hb, rfl, rfl, ?_, ?_, rfl, rfl, rfl, rfl⟩
  · exact lookupBatch_eraseBatch_self st.batches T k
  · intro x hx hnot
    exact mem_eraseBatch.mpr ⟨hx, hnot⟩

/-- Member transfer used by the C5 witness batch. -/
def w5Ste : SendToEthereum :=
  { id := 6, sender := "s", ethereumRecipient := 60,
    erc20Token := { contract := 9, amount := 40 },
    erc20Fee := { contract := 9, amount := 3 } }

/-- Batch stored at key (9, 4) in the C5 witness state. -/
def w5B : BatchTx :=
  { nonce := 4, timeout := 70, transactions := [w5Ste], tokenContract := 9, height := 2 }

/-- C5 witness state: one unrelated pool entry, the batch `w5B` and one other batch. -/
def w5St : State :=
  { pool := [{ id := 8, sender := "t", ethereumRecipient := 61,
               erc20Token := { contract := 9, amount := 5 },
               erc20Fee := { contract := 9, amount := 1 } }],
    batches := [w5B, { nonce := 5, timeout := 71, transactions := [], tokenContract := 12,
                       height := 2 }],
    lastBatchNonce := some 5,
    params := { averageBlockTime := 1, averageEthereumBlockTime := 1, targetBatchTimeout := 1 },
    observed := { cosmosHeight := 1, ethereumHeight := 1 }, blockHeight := 3 }

/-- Witness for C5 at the concrete state `w5St` and batch key (9, 4). -/
theorem cancelBatchTx_restores_pool_witness :
    ∃ st2, CancelBatchTx w5St 9 4 = some st2 ∧
      st2.pool = w5St.pool ++ w5B.transactions ∧
      st2.batches = eraseBatch w5St.batches 9 4 ∧
      GetOutgoingTxBatch st2 9 4 = none ∧
      (∀ x ∈ w5St.batches, ¬(x.tokenContract = 9 ∧ x.nonce = 4) → x ∈ st2.batches) ∧
      st2.lastBatchNonce = w5St.lastBatchNonce ∧ st2.params = w5St.params ∧
      st2.observed = w5St.observed ∧ st2.blockHeight = w5St.blockHeight :=
  cancelBatchTx_restores_pool w5St 9 4 w5B (by decide)

/-! Claim C2: helper lemmas about `buildBatchCore`. -/

/-- The batch value assembled by `buildBatchCore`. -/
def builtBatch (st : State) (c : Addr) (m : Nat) : BatchTx :=
  let selectedStes := selectStesGo (unbatchedByContract st c) m []
  let st1 := deleteSelected st selectedStes
  { nonce := (IncrementLastOutgoingBatchNonce st1).1
    timeout := getBatchTimeoutHeight st1
    transactions := selectedStes
    tokenContract := c
    height := st1.blockHeight }

theorem buildBatchCore_eq (st : State) (c : Addr) (m : Nat) :
    buildBatchCore st c m =
      (some (builtBatch st c m),
        SetOutgoingTx
          (IncrementLastOutgoingBatchNonce
            (deleteSelected st (selectStesGo (unbatchedByContract st c) m []))).2
          (builtBatch st c m)) := rfl

theorem builtBatch_getFees (st : State) (c : Addr) (m : Nat) :
    (builtBatch st c m).getFees = GetBatchFeesByTokenType st c m := by
  show steFeeSum (selectStesGo (unbatchedByContract st c) m []) = _
  rw [selectStesGo_feeSum]
  rfl

theorem setOutgoingTx_lookup (st : State) (b : BatchTx) :
    GetOutgoingTxBatch (SetOutgoingTx st b) b.tokenContract b.nonce = some b := by
  exact lookupBatch_eraseBatch_append rfl rfl

theorem buildBatchCore_persists (st : State) (c : Addr) (m : Nat) :
    GetOutgoingTxBatch (buildBatchCore st c m).2 c (builtBatch st c m).nonce =
      some (builtBatch st c m) := by
  rw [buildBatchCore_eq]
  exact setOutgoingTx_lookup _ _

/-- C2: `BuildBatchTx st T n` returns `none` exactly when an outstanding batch for `T`
exists — the highest-nonce one, as returned by `GetLastOutgoingBatchByTokenType`
(the spec's `GetCurrentBatch`) — whose total fee is greater than or equal to
`GetBatchFeesByTokenType st T n` (the spec's `AggregateFees`); otherwise it returns a
new batch, persisted in the post state under key (T, its nonce), whose total fee
equals the value `GetBatchFeesByTokenType` had on the pre-call state. -/
theorem buildBatchTx_profitability (st : State) (T : Addr) (n : Nat) :
    ((BuildBatchTx st T n).1 = none ↔
      ∃ b, GetLastOutgoingBatchByTokenType st T = some b ∧
        GetBatchFeesByTokenType st T n ≤ b.getFees) ∧
    (∀ b, (BuildBatchTx st T n).1 = some b →
      b.getFees = GetBatchFeesByTokenType st T n ∧
      GetOutgoingTxBatch (BuildBatchTx st T n).2 T b.nonce = some b) := by
  cases hA : GetLastOutgoingBatchByTokenType st T with
  | none =>
    simp only [BuildBatchTx, hA]
    constructor
    · rw [buildBatchCore_eq]
      simp
    · intro b hb
      rw [buildBatchCore_eq] at hb ⊢
      simp only at hb
      injection hb with hb
      subst hb
      exact ⟨builtBatch_getFees st T n, by
        have := buildBatchCore_persists st T n
        rw [buildBatchCore_eq] at this
        exact this⟩
  | some lb =>
    simp only [BuildBatchTx, hA]
    by_cases hle : GetBatchFeesByTokenType st T n ≤ lb.getFees
    · rw [if_pos hle]
      constructor
      · simp only [true_iff]
        exact ⟨lb, rfl, hle⟩
      · intro b hb
        simp at hb
    · rw [if_neg hle]
      constructor
      · rw [buildBatchCore_eq]
        simp only [Option.some_ne_none, false_iff]
        rintro ⟨b, hb, hble⟩
        injection hb with hb
        subst hb
        exact hle hble
      · intro b hb
        rw [buildBatchCore_eq] at hb ⊢
        simp only at hb
        injection hb with hb
        subst hb
        exact ⟨builtBatch_getFees st T n, by
          have := buildBatchCore_persists st T n
          rw [buildBatchCore_eq] at this
          exact this⟩

/-- Pool entries for the C2 witness: token 7, fees 10 and 7. -/
def w2Ste1 : SendToEthereum :=
  { id := 1, sender := "a", ethereumRecipient := 50,
    erc20Token := { contract := 7, amount := 100 },
    erc20Fee := { contract := 7, amount := 10 } }

def w2Ste2 : SendToEthereum :=
  { id := 2, sender := "b", ethereumRecipient := 51,
    erc20Token := { contract := 7, amount := 200 },
    erc20Fee := { contract := 7, amount := 7 } }

/-- C2 witness state: two pool entries for token 7, no outstanding batch. -/
def w2St : State :=
  { pool := [w2Ste2, w2Ste1], batches := [], lastBatchNonce := none,
    params := { averageBlockTime := 5000, averageEthereumBlockTime := 15000,
                targetBatchTimeout := 43200000 },
    observed := { cosmosHeight := 0, ethereumHeight := 0 }, blockHeight := 5 }

/-- The batch `BuildBatchTx w2St 7 2` builds: both entries in fee-descending order. -/
def w2Batch : BatchTx :=
  { nonce := 1, timeout := 0, transactions := [w2Ste1, w2Ste2], tokenContract := 7,
    height := 5 }

/-- Witness for C2 at the concrete state `w2St`. -/
theorem buildBatchTx_profitability_witness :
    w2Batch.getFees = GetBatchFeesByTokenType w2St 7 2 ∧
    GetOutgoingTxBatch (BuildBatchTx w2St 7 2).2 7 w2Batch.nonce = some w2Batch :=
  (buildBatchTx_profitability w2St 7 2).2 w2Batch (by decide)

/-! Claim C8. -/

/-- The batch built from an empty selection. -/
def emptyBuiltBatch (st : State) (T : Addr) : BatchTx :=
  { nonce := (IncrementLastOutgoingBatchNonce st).1
    timeout := getBatchTimeoutHeight st
    transactions := []
    tokenContract := T
    height := st.blockHeight }

/-- C8: for a token whose unbatched pool is empty and for which the profitability
guard does not abort, `BuildBatchTx` still constructs, persists and returns a batch
with an empty transaction list, the freshly allocated nonce, the projected timeout,
and the current block height as creation height — it does not return `none`. -/
theorem buildBatchTx_emptyPool (st : State) (T : Addr) (n : Nat)
    (hpool : unbatchedByContract st T = [])
    (hg : ∀ b, GetLastOutgoingBatchByTokenType st T = some b →
      b.getFees < GetBatchFeesByTokenType st T n) :
    (BuildBatchTx st T n).1 = some (emptyBuiltBatch st T) ∧
    GetOutgoingTxBatch (BuildBatchTx st T n).2 T (emptyBuiltBatch st T).nonce =
      some (emptyBuiltBatch st T) := by
  have hbuilt : builtBatch st T n = emptyBuiltBatch st T := by
    unfold builtBatch emptyBuiltBatch
    rw [hpool]
    rfl
  have hcore1 : (buildBatchCore st T n).1 = some (emptyBuiltBatch st T) := by
    rw [buildBatchCore_eq, ← hbuilt]
  have hcore2 : GetOutgoingTxBatch (buildBatchCore st T n).2 T (emptyBuiltBatch st T).nonce =
      some (emptyBuiltBatch st T) := by
    rw [← hbuilt]
    exact buildBatchCore_persists st T n
  cases hA : GetLastOutgoingBatchByTokenType st T with
  | none =>
    simp only [BuildBatchTx, hA]
    exact ⟨hcore1, hcore2⟩
  | some lb =>
    have := hg lb hA
    simp only [BuildBatchTx, hA, if_neg (not_le.mpr this)]
    exact ⟨hcore1, hcore2⟩

/-- C8 witness state: empty pool, an outstanding batch of another token, counter at 3. -/
def w8St : State :=
  { pool := [], batches := [{ nonce := 3, timeout := 9, transactions := [],
                              tokenContract := 5, height := 1 }],
    lastBatchNonce := some 3,
    params := { averageBlockTime := 5000, averageEthereumBlockTime := 15000,
                targetBatchTimeout := 43200000 },
    observed := { cosmosHeight := 100, ethereumHeight := 1000 }, blockHeight := 160 }

/-- Witness for C8 at the concrete state `w8St` and token 3 (empty pool). -/
theorem buildBatchTx_emptyPool_witness :
    (BuildBatchTx w8St 3 100).1 = some (emptyBuiltBatch w8St 3) ∧
    GetOutgoingTxBatch (BuildBatchTx w8St 3 100).2 3 (emptyBuiltBatch w8St 3).nonce =
      some (emptyBuiltBatch w8St 3) :=
  buildBatchTx_emptyPool w8St 3 100 (by decide) (by decide)

/-! Claim C4: the nonce allocator. -/

theorem iterAlloc_counter (st : State) (h : st.lastBatchNonce = none) :
    ∀ n, (iterAlloc st (n + 1)).lastBatchNonce = some ((n + 1) % W) := by
  intro n
  induction n with
  | zero =>
    show (IncrementLastOutgoingBatchNonce (iterAlloc st 0)).2.lastBatchNonce = _
    simp [iterAlloc, IncrementLastOutgoingBatchNonce, h]
  | succ k ih =>
    show (IncrementLastOutgoingBatchNonce (iterAlloc st (k + 1))).2.lastBatchNonce = _
    simp only [IncrementLastOutgoingBatchNonce, ih, Option.getD_some]
    rw [Nat.mod_add_mod]

theorem allocVal_mod (st : State) (h : st.lastBatchNonce = none) (n : Nat) :
    allocVal st (n + 1) = (n + 1) % W := by
  cases n with
  | zero => simp [allocVal, iterAlloc, IncrementLastOutgoingBatchNonce, h]
  | succ k =>
    show (IncrementLastOutgoingBatchNonce (iterAlloc st (k + 1 + 1 - 1))).1 = _
    simp only [Nat.add_sub_cancel]
    simp only [IncrementLastOutgoingBatchNonce, iterAlloc_counter st h k, Option.getD_some]
    rw [Nat.mod_add_mod]

/-- C4 (amended): starting from a state whose counter key is absent, within the first
`2 ^ 64 - 1` calls the `n`-th `IncrementLastOutgoingBatchNonce` call returns exactly
`n`, and that value is persisted as the counter when the call returns — so the
returned values are 1, 2, 3, ..., strictly increasing with no repeats and no gaps.
The uint64 counter wraps at `W = 2 ^ 64`, so the bound `n < W` is necessary (see the
counterexample at the 2 ^ 64-th call). -/
theorem allocNext_sequence (st : State) (h : st.lastBatchNonce = none) (n : Nat)
    (h1 : 1 ≤ n) (h2 : n < W) :
    allocVal st n = n ∧ (iterAlloc st n).lastBatchNonce = some n := by
  obtain ⟨k, rfl⟩ : ∃ k, n = k + 1 := ⟨n - 1, by omega⟩
  rw [allocVal_mod st h k, iterAlloc_counter st h k, Nat.mod_eq_of_lt h2]
  exact ⟨rfl, rfl⟩

/-- State with no persisted counter, used for the C4 witness. -/
def w4St : State :=
  { pool := [], batches := [], lastBatchNonce := none,
    params := { averageBlockTime := 1, averageEthereumBlockTime := 1, targetBatchTimeout := 1 },
    observed := { cosmosHeight := 0, ethereumHeight := 0 }, blockHeight := 0 }

/-- Witness for C4 (amended) at the third call from the empty-counter state. -/
theorem allocNext_sequence_witness :
    allocVal w4St 3 = 3 ∧ (iterAlloc w4St 3).lastBatchNonce = some 3 :=
  allocNext_sequence w4St (by decide) 3 (by decide) (by decide)

/-- State with no persisted counter, used for the C4 counterexample. -/
def cex4St : State :=
  { pool := [], batches := [], lastBatchNonce := none,
    params := { averageBlockTime := 2, averageEthereumBlockTime := 2, targetBatchTimeout := 2 },
    observed := { cosmosHeight := 0, ethereumHeight := 0 }, blockHeight := 1 }

/-- Counterexample to C4 as stated: starting from an absent counter key, the
`2 ^ 64`-th `IncrementLastOutgoingBatchNonce` call returns 0 — the uint64 counter has
wrapped — not `2 ^ 64`, so the returned sequence is not 1, 2, 3, ... at every call,
and values repeat from that point on. -/
theorem allocNext_wrap_cex :
    cex4St.lastBatchNonce = none ∧ allocVal cex4St (2 ^ 64) = 0 ∧ (0 : Nat) ≠ 2 ^ 64 := by
  refine ⟨rfl, ?_, by decide⟩
  have h := allocVal_mod cex4St rfl (2 ^ 64 - 1)
  rw [Nat.sub_add_cancel (by decide : 1 ≤ 2 ^ 64)] at h
  rw [h]
  exact Nat.mod_self _

/-! Claim C3: the timeout projection. -/

theorem getBatchTimeoutHeight_closed_form (st : State)
    (hc : st.observed.cosmosHeight ≠ 0) (he : st.observed.ethereumHeight ≠ 0)
    (hle : st.observed.cosmosHeight ≤ st.blockHeight)
    (hcur : st.blockHeight < W)
    (h1 : (st.blockHeight - st.observed.cosmosHeight) * st.params.averageBlockTime < W)
    (h2 : (st.blockHeight - st.observed.cosmosHeight) * st.params.averageBlockTime /
        st.params.averageEthereumBlockTime + st.observed.ethereumHeight < W)
    (h3 : (st.blockHeight - st.observed.cosmosHeight) * st.params.averageBlockTime /
        st.params.averageEthereumBlockTime + st.observed.ethereumHeight +
        st.params.targetBatchTimeout / st.params.averageEthereumBlockTime < W) :
    getBatchTimeoutHeight st =
      st.observed.ethereumHeight +
        (st.blockHeight - st.observed.cosmosHeight) * st.params.averageBlockTime /
          st.params.averageEthereumBlockTime +
        st.params.targetBatchTimeout / st.params.averageEthereumBlockTime := by
  simp only [getBatchTimeoutHeight]
  rw [if_neg (by push_neg; exact ⟨hc, he⟩)]
  have e1 : st.blockHeight + W - st.observed.cosmosHeight =
      st.blockHeight - st.observed.cosmosHeight + W := by omega
  have m1 : (st.blockHeight - st.observed.cosmosHeight) % W =
      st.blockHeight - st.observed.cosmosHeight := Nat.mod_eq_of_lt (by omega)
  have m2 : (st.blockHeight - st.observed.cosmosHeight) * st.params.averageBlockTime % W =
      (st.blockHeight - st.observed.cosmosHeight) * st.params.averageBlockTime :=
    Nat.mod_eq_of_lt h1
  have m3 : ((st.blockHeight - st.observed.cosmosHeight) * st.params.averageBlockTime /
        st.params.averageEthereumBlockTime + st.observed.ethereumHeight) % W =
      (st.blockHeight - st.observed.cosmosHeight) * st.params.averageBlockTime /
        st.params.averageEthereumBlockTime + st.observed.ethereumHeight :=
    Nat.mod_eq_of_lt h2
  have m4 : ((st.blockHeight - st.observed.cosmosHeight) * st.params.averageBlockTime /
        st.params.averageEthereumBlockTime + st.observed.ethereumHeight +
        st.params.targetBatchTimeout / st.params.averageEthereumBlockTime) % W =
      (st.blockHeight - st.observed.cosmosHeight) * st.params.averageBlockTime /
        st.params.averageEthereumBlockTime + st.observed.ethereumHeight +
        st.params.targetBatchTimeout / st.params.averageEthereumBlockTime :=
    Nat.mod_eq_of_lt h3
  rw [e1, Nat.add_mod_right, m1, m2, m3, m4]
  omega

/-- C3 (amended): whenever both observed components are nonzero, the observed Cosmos
height does not exceed the current one, the foreign block time parameter is positive,
and none of the uint64 operations overflows, `getBatchTimeoutHeight` equals the
spec's formula `observedForeignHeight + floor(elapsed * averageHomeBlockTimeMs /
averageForeignBlockTimeMs) + floor(targetTimeoutMs / averageForeignBlockTimeMs)`
over the integers.  Without the no-underflow hypothesis `hle` the uint64 subtraction
wraps and the claim fails (see the counterexample). -/
theorem projectTimeout_formula (st : State)
    (hc : st.observed.cosmosHeight ≠ 0) (he : st.observed.ethereumHeight ≠ 0)
    (hle : st.observed.cosmosHeight ≤ st.blockHeight)
    (hcur : st.blockHeight < W)
    (_heth : 0 < st.params.averageEthereumBlockTime)
    (h1 : (st.blockHeight - st.observed.cosmosHeight) * st.params.averageBlockTime < W)
    (h2 : (st.blockHeight - st.observed.cosmosHeight) * st.params.averageBlockTime /
        st.params.averageEthereumBlockTime + st.observed.ethereumHeight < W)
    (h3 : (st.blockHeight - st.observed.cosmosHeight) * st.params.averageBlockTime /
        st.params.averageEthereumBlockTime + st.observed.ethereumHeight +
        st.params.targetBatchTimeout / st.params.averageEthereumBlockTime < W) :
    (getBatchTimeoutHeight st : Int) = specProjectTimeout st := by
  rw [getBatchTimeoutHeight_closed_form st hc he hle hcur h1 h2 h3]
  unfold specProjectTimeout
  have hsub : (st.blockHeight : Int) - (st.observed.cosmosHeight : Int) =
      ((st.blockHeight - st.observed.cosmosHeight : Nat) : Int) := by
    omega
  rw [hsub, ← Int.natCast_mul, ← Int.ofNat_fdiv, ← Int.ofNat_fdiv]
  push_cast
  ring

/-- C3 witness state: the spec's concrete instance (home block time 5000 ms, foreign
block time 15000 ms, target timeout 43200000 ms, observed pair (100, 1000), current
home height 160). -/
def w3St : State :=
  { pool := [], batches := [], lastBatchNonce := none,
    params := { averageBlockTime := 5000, averageEthereumBlockTime := 15000,
                targetBatchTimeout := 43200000 },
    observed := { cosmosHeight := 100, ethereumHeight := 1000 }, blockHeight := 160 }

/-- Witness for C3 (amended) at the spec's concrete instance; the projected timeout
is 1000 + 20 + 2880 = 3900. -/
theorem projectTimeout_formula_witness :
    (getBatchTimeoutHeight w3St : Int) = specProjectTimeout w3St ∧
    getBatchTimeoutHeight w3St = 3900 :=
  ⟨projectTimeout_formula w3St (by decide) (by decide) (by decide) (by decide) (by decide)
      (by decide) (by decide) (by decide),
    by decide⟩

/-- C3 counterexample state: both observed components nonzero, but the current home
height (1) is below the observed home height (2). -/
def cex3St : State :=
  { pool := [], batches := [], lastBatchNonce := none,
    params := { averageBlockTime := 5000, averageEthereumBlockTime := 15000,
                targetBatchTimeout := 43200000 },
    observed := { cosmosHeight := 2, ethereumHeight := 1 }, blockHeight := 1 }

/-- Counterexample to C3 as stated: at `cex3St` both observed components are nonzero,
yet the code's uint64 subtraction wraps (the current home height is below the
observed one), so the returned value differs from the claim's integer formula, which
evaluates to 1 + floor(-5000 / 15000) + 2880 = 2880. -/
theorem projectTimeout_formula_cex :
    cex3St.observed.cosmosHeight ≠ 0 ∧ cex3St.observed.ethereumHeight ≠ 0 ∧
    specProjectTimeout cex3St = 2880 ∧
    (getBatchTimeoutHeight cex3St : Int) ≠ specProjectTimeout cex3St := by
  refine ⟨by decide, by decide, by decide, by decide⟩

/-! Claim C9: the current-batch scan. -/

theorem lastBatchGo_some_ne_none (token : Addr) :
    ∀ (l : List BatchTx) (b : BatchTx) (n : Nat), lastBatchGo token l (some b) n ≠ none := by
  intro l
  induction l with
  | nil => intro b n h; cases h
  | cons x rest ih =>
    intro b n
    simp only [lastBatchGo]
    by_cases hx : x.tokenContract = token ∧ n < x.nonce
    · rw [if_pos hx]; exact ih x x.nonce
    · rw [if_neg hx]; exact ih b n

theorem lastBatchGo_none_iff (token : Addr) :
    ∀ (l : List BatchTx) (last : Option BatchTx) (n : Nat),
      lastBatchGo token l last n = none ↔
        last = none ∧ ∀ b ∈ l, ¬(b.tokenContract = token ∧ n < b.nonce) := by
  intro l
  induction l with
  | nil =>
    intro last n
    simp [lastBatchGo]
  | cons x rest ih =>
    intro last n
    simp only [lastBatchGo]
    by_cases hx : x.tokenContract = token ∧ n < x.nonce
    · rw [if_pos hx]
      constructor
      · intro h
        exact absurd h (lastBatchGo_some_ne_none token rest x x.nonce)
      · rintro ⟨-, hall⟩
        exact absurd hx (hall x (List.mem_cons_self _ _))
    · rw [if_neg hx, ih]
      constructor
      · rintro ⟨h1, h2⟩
        refine ⟨h1, ?_⟩
        intro b hb
        rcases List.mem_cons.mp hb with h | h
        · exact h ▸ hx
        · exact h2 b h
      · rintro ⟨h1, h2⟩
        exact ⟨h1, fun b hb => h2 b (List.mem_cons_of_mem _ hb)⟩

theorem lastBatchGo_some_spec (token : Addr) :
    ∀ (l : List BatchTx) (last : Option BatchTx) (n : Nat) (b : BatchTx),
      (∀ b0, last = some b0 → b0.tokenContract = token ∧ b0.nonce = n ∧ 0 < n) →
      lastBatchGo token l last n = some b →
      (b ∈ l ∨ last = some b) ∧ b.tokenContract = token ∧ 0 < b.nonce ∧ n ≤ b.nonce ∧
        ∀ b2 ∈ l, b2.tokenContract = token → b2.nonce ≤ b.nonce := by
  intro l
  induction l with
  | nil =>
    intro last n b hinv h
    obtain ⟨h1, h2, h3⟩ := hinv b h
    exact ⟨Or.inr h, h1, by omega, by omega, by simp⟩
  | cons x rest ih =>
    intro last n b hinv h
    simp only [lastBatchGo] at h
    by_cases hx : x.tokenContract = token ∧ n < x.nonce
    · rw [if_pos hx] at h
      have hinv2 : ∀ b0, (some x : Option BatchTx) = some b0 →
          b0.tokenContract = token ∧ b0.nonce = x.nonce ∧ 0 < x.nonce := by
        intro b0 hb0
        injection hb0 with hb0
        subst hb0
        exact ⟨hx.1, rfl, Nat.lt_of_le_of_lt (Nat.zero_le n) hx.2⟩
      obtain ⟨hmem, hT, hpos, hge, hall⟩ := ih (some x) x.nonce b hinv2 h
      refine ⟨?_, hT, hpos, Nat.le_trans (Nat.le_of_lt hx.2) hge, ?_⟩
      · rcases hmem with hm | hm
        · exact Or.inl (List.mem_cons_of_mem _ hm)
        · injection hm with hm
          subst hm
          exact Or.inl (List.mem_cons_self _ _)
      · intro b2 hb2 hb2T
        rcases List.mem_cons.mp hb2 with hm | hm
        · subst hm
          exact hge
        · exact hall b2 hm hb2T
    · rw [if_neg hx] at h
      obtain ⟨hmem, hT, hpos, hge, hall⟩ := ih last n b hinv h
      refine ⟨?_, hT, hpos, hge, ?_⟩
      · rcases hmem with hm | hm
        · exact Or.inl (List.mem_cons_of_mem _ hm)
        · exact Or.inr hm
      · intro b2 hb2 hb2T
        rcases List.mem_cons.mp hb2 with hm | hm
        · subst hm
          have : ¬ n < b2.nonce := fun hlt => hx ⟨hb2T, hlt⟩
          omega
        · exact hall b2 hm hb2T

/-- C9 (amended): `GetLastOutgoingBatchByTokenType st T` returns `none` exactly when
every outstanding batch of token `T` has nonce 0 (in particular when no batch of `T`
exists at all); when it returns a batch, that batch is an outstanding batch of token
`T` with nonzero nonce whose nonce is maximal among all outstanding batches of `T`.
The scan starts its running `lastNonce` at 0 and keeps a batch only when its nonce is
strictly greater, so a batch with nonce 0 is never returned — this is why the claim
as stated fails (see the counterexample). -/
theorem getLastOutgoingBatch_spec (st : State) (T : Addr) :
    (GetLastOutgoingBatchByTokenType st T = none ↔
      ∀ b ∈ st.batches, b.tokenContract = T → b.nonce = 0) ∧
    (∀ b, GetLastOutgoingBatchByTokenType st T = some b →
      b ∈ st.batches ∧ b.tokenContract = T ∧ 0 < b.nonce ∧
        ∀ b2 ∈ st.batches, b2.tokenContract = T → b2.nonce ≤ b.nonce) := by
  constructor
  · unfold GetLastOutgoingBatchByTokenType
    rw [lastBatchGo_none_iff]
    constructor
    · rintro ⟨-, hall⟩ b hb hbT
      have h2 : ¬ 0 < b.nonce := fun hp => hall b hb ⟨hbT, hp⟩
      omega
    · intro hall
      refine ⟨rfl, ?_⟩
      rintro b hb ⟨hbT, hpos⟩
      have := hall b hb hbT
      omega
  · intro b hb
    obtain ⟨hmem, hT, hpos, -, hall⟩ :=
      lastBatchGo_some_spec T st.batches none 0 b (by intro b0 h0; cases h0) hb
    rcases hmem with hm | hm
    · exact ⟨hm, hT, hpos, hall⟩
    · cases hm

/-- C9 witness state: two batches of token 3 (nonces 5 and 2) and one of token 8. -/
def w9St : State :=
  { pool := [],
    batches := [{ nonce := 2, timeout := 0, transactions := [], tokenContract := 3, height := 1 },
                { nonce := 7, timeout := 0, transactions := [], tokenContract := 8, height := 1 },
                { nonce := 5, timeout := 0, transactions := [], tokenContract := 3, height := 2 }],
    lastBatchNonce := some 7,
    params := { averageBlockTime := 1, averageEthereumBlockTime := 1, targetBatchTimeout := 1 },
    observed := { cosmosHeight := 0, ethereumHeight := 0 }, blockHeight := 4 }

/-- The highest-nonce batch of token 3 in `w9St`. -/
def w9B : BatchTx :=
  { nonce := 5, timeout := 0, transactions := [], tokenContract := 3, height := 2 }

/-- Witness for C9 (amended): at `w9St`, the scan for token 3 returns the batch with
nonce 5, an outstanding batch of token 3 of maximal nonce. -/
theorem getLastOutgoingBatch_spec_witness :
    w9B ∈ w9St.batches ∧ w9B.tokenContract = 3 ∧ 0 < w9B.nonce ∧
      ∀ b2 ∈ w9St.batches, b2.tokenContract = 3 → b2.nonce ≤ w9B.nonce :=
  (getLastOutgoingBatch_spec w9St 3).2 w9B (by decide)

/-- The nonce-0 batch of token 9 stored in the C9 counterexample state. -/
def cex9B : BatchTx :=
  { nonce := 0, timeout := 0, transactions := [], tokenContract := 9, height := 1 }

/-- C9 counterexample state: a single outstanding batch of token 9, with nonce 0. -/
def cex9St : State :=
  { pool := [], batches := [cex9B], lastBatchNonce := none,
    params := { averageBlockTime := 1, averageEthereumBlockTime := 1, targetBatchTimeout := 1 },
    observed := { cosmosHeight := 0, ethereumHeight := 0 }, blockHeight := 4 }

/-- Counterexample to C9 as stated: `cex9St` holds an outstanding batch of token 9
(with nonce 0), yet the scan returns `none` — so `none` is not returned exactly when
no outstanding batch for the token exists. -/
theorem getLastOutgoingBatch_cex :
    GetLastOutgoingBatchByTokenType cex9St 9 = none ∧
    cex9B ∈ cex9St.batches ∧ cex9B.tokenContract = 9 := by
  exact ⟨by decide, by decide, by decide⟩

/-! Claim C7: fatal failure and success conditions of `BatchTxExecuted`. -/

theorem execLoop_isSome (T : Addr) (batchTx : BatchTx) (hT : batchTx.tokenContract = T) :
    ∀ (l : List BatchTx) (st : State),
      (∀ x ∈ l, x.nonce < batchTx.nonce → x.tokenContract = T) →
      (∀ x ∈ l, x.nonce < batchTx.nonce → x ∈ st.batches) →
      l.Pairwise (fun a c => (a.tokenContract, a.nonce) ≠ (c.tokenContract, c.nonce)) →
      (execLoop T batchTx l st).isSome := by
  intro l
  induction l with
  | nil => intro st _ _ _; rfl
  | cons x rest ih =>
    intro st hall hpres hpw
    simp only [execLoop]
    by_cases hx : x.nonce < batchTx.nonce
    · rw [if_pos ⟨hx, hT⟩]
      have hxT : x.tokenContract = T := hall x (List.mem_cons_self _ _) hx
      have hxmem : x ∈ st.batches := hpres x (List.mem_cons_self _ _) hx
      have hlk : (lookupBatch st.batches T x.nonce).isSome :=
        lookupBatch_isSome_of_mem hxmem hxT rfl
      obtain ⟨b2, hb2⟩ := Option.isSome_iff_exists.mp hlk
      rw [cancelBatchTx_spec (show GetOutgoingTxBatch st T x.nonce = some b2 from hb2)]
      apply ih
      · intro y hy hylt
        exact hall y (List.mem_cons_of_mem _ hy) hylt
      · intro y hy hylt
        have hymem := hpres y (List.mem_cons_of_mem _ hy) hylt
        have hyT := hall y (List.mem_cons_of_mem _ hy) hylt
        have hkey : ¬(y.tokenContract = T ∧ y.nonce = x.nonce) := by
          rintro ⟨hyT2, hyn⟩
          have hne := (List.pairwise_cons.mp hpw).1 y hy
          exact hne (by rw [hxT, hyT2, hyn])
        exact mem_eraseBatch.mpr ⟨hymem, hkey⟩
      · exact (List.pairwise_cons.mp hpw).2
    · rw [if_neg (fun hcon => hx hcon.1)]
      apply ih st
      · intro y hy
        exact hall y (List.mem_cons_of_mem _ hy)
      · intro y hy
        exact hpres y (List.mem_cons_of_mem _ hy)
      · exact (List.pairwise_cons.mp hpw).2

/-- C7 (amended): `BatchTxExecuted st T k` fails fatally (models the Go nil-pointer
panic, aborting the enclosing transition) whenever no outstanding batch record
exists at key (T, k).  Conversely, when a batch exists at (T, k), the store's keys
are distinct (any key-value store guarantees this), and additionally every
outstanding batch with nonce below k belongs to token T, the call does not fail.
The extra condition is forced by the code: the cascade loop cancels key
(T, iterated nonce) even for batches of other tokens, and that lookup fails —
see the counterexample, which meets the claim's original precondition yet aborts. -/
theorem batchTxExecuted_fatal_spec (st : State) (T : Addr) (k : Nat) :
    (GetOutgoingTxBatch st T k = none → BatchTxExecuted st T k = none) ∧
    ((GetOutgoingTxBatch st T k).isSome →
      (∀ x ∈ st.batches, x.nonce < k → x.tokenContract = T) →
      (st.batches.map fun b => (b.tokenContract, b.nonce)).Nodup →
      (BatchTxExecuted st T k).isSome) := by
  constructor
  · intro h
    simp [BatchTxExecuted, GetOutgoingTxBatch] at h ⊢
    rw [h]
  · intro hsome hall hnd
    obtain ⟨b, hb⟩ := Option.isSome_iff_exists.mp hsome
    obtain ⟨hbT, hbk, -⟩ := lookupBatch_eq_some hb
    have hpw : st.batches.Pairwise
        (fun a c => (a.tokenContract, a.nonce) ≠ (c.tokenContract, c.nonce)) := by
      rw [List.Nodup, List.pairwise_map] at hnd
      exact hnd
    have hloop := execLoop_isSome T b hbT st.batches st
      (fun x hx hlt => hall x hx (hbk ▸ hlt)) (fun x hx _ => hx) hpw
    obtain ⟨st2, hst2⟩ := Option.isSome_iff_exists.mp hloop
    simp [BatchTxExecuted, hb, hst2]

/-- C7 witness state: two batches of the same token 4 (nonces 1 and 2). -/
def w7St : State :=
  { pool := [],
    batches := [{ nonce := 1, timeout := 0, transactions := [], tokenContract := 4, height := 1 },
                { nonce := 2, timeout := 0, transactions := [], tokenContract := 4, height := 2 }],
    lastBatchNonce := some 2,
    params := { averageBlockTime := 1, averageEthereumBlockTime := 1, targetBatchTimeout := 1 },
    observed := { cosmosHeight := 0, ethereumHeight := 0 }, blockHeight := 3 }

/-- Witness for C7 (amended): executing (4, 2) at `w7St` succeeds, every smaller-nonce
outstanding batch being of the same token. -/
theorem batchTxExecuted_fatal_spec_witness :
    (BatchTxExecuted w7St 4 2).isSome :=
  (batchTxExecuted_fatal_spec w7St 4 2).2 (by decide) (by decide) (by decide)

/-- C7 counterexample state: a batch of token 1 at nonce 1 and a batch of token 2 at
nonce 2; every stored record is a well-formed batch record. -/
def cex7St : State :=
  { pool := [],
    batches := [{ nonce := 1, timeout := 0, transactions := [], tokenContract := 1, height := 1 },
                { nonce := 2, timeout := 0, transactions := [], tokenContract := 2, height := 2 }],
    lastBatchNonce := some 2,
    params := { averageBlockTime := 1, averageEthereumBlockTime := 1, targetBatchTimeout := 1 },
    observed := { cosmosHeight := 0, ethereumHeight := 0 }, blockHeight := 3 }

/-- Counterexample to C7 as stated: a batch exists at key (2, 2) (and every stored
record under the batch store decodes as a `BatchTx` by construction of the model),
yet `BatchTxExecuted cex7St 2 2` fails: the cascade loop reaches the token-1 batch
with nonce 1, calls `CancelBatchTx` for key (2, 1), finds nothing there, and the Go
code dereferences a nil `*types.BatchTx`. -/
theorem batchTxExecuted_fatal_cex :
    (GetOutgoingTxBatch cex7St 2 2).isSome ∧ BatchTxExecuted cex7St 2 2 = none := by
  exact ⟨by decide, by decide⟩

/-! Claim C1: the cascading cancellation of `BatchTxExecuted`. -/

/-- C1 fixture: the batch of token 11 at nonce 1, outstanding alongside `cex1B2`. -/
def cex1B1 : BatchTx :=
  { nonce := 1, timeout := 6, transactions := [], tokenContract := 11, height := 1 }

/-- C1 fixture: the batch of token 22 at nonce 2, the one being executed. -/
def cex1B2 : BatchTx :=
  { nonce := 2, timeout := 7, transactions := [], tokenContract := 22, height := 2 }

/-- C1 failing input: outstanding batches (11, 1) and (22, 2). -/
def cex1St : State :=
  { pool := [], batches := [cex1B1, cex1B2], lastBatchNonce := some 2,
    params := { averageBlockTime := 1, averageEthereumBlockTime := 1, targetBatchTimeout := 1 },
    observed := { cosmosHeight := 0, ethereumHeight := 0 }, blockHeight := 3 }

/-- C1: evaluation of the code at the failing input.  Executing batch (22, 2) should,
per the claim, delete the record at (22, 2) and leave the token-11 batch untouched.
Instead the cascade condition of the code compares the executed batch's token
contract with the address used to fetch it — a tautology — so the loop reaches the
token-11 batch with nonce 1 < 2 and calls `CancelBatchTx` for key (22, 1); no record
exists there, the nil `*types.BatchTx` is dereferenced, and the whole transition
aborts instead of completing. -/
theorem batchTxExecuted_cross_token_bug :
    GetOutgoingTxBatch cex1St 22 2 = some cex1B2 ∧ BatchTxExecuted cex1St 22 2 = none := by
  exact ⟨by decide, by decide⟩

end Gravity
